import Mathlib

/-!
Shallow embedding of the PASETO v2 adapter of pyseto
(src/pyseto/versions/v2.py) together with the parts of the shared
infrastructure the v2 adapter uses.  Byte strings are modelled as
`List Nat`; the external cryptographic primitives (XChaCha20-Poly1305,
blake2b, Ed25519, base64url) that the repository consumes through narrow
interfaces are modelled as fields of an `ExtCrypto` record, so every
theorem that depends on a property of a primitive states that property
as an explicit hypothesis.
-/

namespace Pyseto

/-- Byte strings are lists of naturals (each element an octet value). -/
abbrev Bytes := List Nat

/-- The typed errors of the library (src/pyseto/exceptions.py is absent
from src; the constructors follow the spec's error taxonomy, with
`valueError` standing for Python's builtin `ValueError`, which the spec
calls ValidationError). -/
inductive Err where
  | valueError
  | encryptError
  | decryptError
  | signError
  | verifyError
deriving DecidableEq, Repr

/-- 8-byte little-endian encoding of a natural number, as used by PAE. -/
def le64 (n : Nat) : Bytes :=
  (List.range 8).map (fun i => n / 256 ^ i % 256)

/-- Modelled from the spec: `pae` lives in src/pyseto/utils.py which is
absent from src.  Spec §4.1: output = 8-byte little-endian count of
parts, followed by, for each part, an 8-byte little-endian length then
the raw bytes. -/
def pae (parts : List Bytes) : Bytes :=
  le64 parts.length ++ parts.foldr (fun p acc => le64 p.length ++ p ++ acc) []

/-- The external cryptographic collaborators (spec §6), consumed through
narrow interfaces: the keyed blake2b hashes with 24-byte (v2) and
32-byte (v4) digests used for nonce derivation, the 33-byte blake2b
hash used for PASERK ids, the
XChaCha20-Poly1305 AEAD, Ed25519 sign/verify, and the base64url codec
(src/pyseto/utils.py, absent from src). -/
structure ExtCrypto where
  blakeKeyed : Bytes → Bytes → Bytes
  blakeKeyed32 : Bytes → Bytes → Bytes
  blake33 : Bytes → Bytes
  aeadSeal : Bytes → Bytes → Bytes → Bytes → Bytes × Bytes
  aeadOpen : Bytes → Bytes → Bytes → Bytes → Bytes → Option Bytes
  edSign : Bytes → Bytes → Bytes
  edVerify : Bytes → Bytes → Bytes → Bool
  edPub : Bytes → Bytes
  b64e : Bytes → Bytes
  b64d : Bytes → Bytes

/-- An Ed25519 key object: either a public key or a private key, each
carrying its raw 32-byte material (`Ed25519PublicKey` /
`Ed25519PrivateKey` of the external library). -/
inductive Ed25519Key where
  | publicKey (raw : Bytes)
  | privateKey (raw : Bytes)
deriving DecidableEq, Repr

/-- A v2.local key object: raw symmetric key bytes, with the class
invariant established by `V2Local.__init__` (exactly 32 bytes). -/
structure V2Local where
  key : Bytes
  keyLen : key.length = 32

/-- A v2.public key object: holds an Ed25519 public or private key. -/
structure V2Public where
  key : Ed25519Key
deriving DecidableEq

/-- A v4.local key object (class absent from src, see `v4LocalNew`). -/
structure V4Local where
  key : Bytes
deriving DecidableEq

/-- `b"v2.local."`, the v2.local header. -/
def v2LocalHeader : Bytes := [118, 50, 46, 108, 111, 99, 97, 108, 46]

/-- `b"v2.public."`, the v2.public header. -/
def v2PublicHeader : Bytes := [118, 50, 46, 112, 117, 98, 108, 105, 99, 46]

/-- `V2Local.__init__`: the base `LocalKey.__init__` (absent from src;
modelled from the spec and the repository's tests, it rejects empty key
material with `ValueError("key must be specified.")`), then
`if len(self._key) != 32: raise ValueError("key must be 32 bytes long.")`. -/
def v2LocalNew (key : Bytes) : Except Err V2Local :=
  if key = [] then .error .valueError
  else if h : key.length = 32 then .ok ⟨key, h⟩
  else .error .valueError

/-- Modelled from the spec: the `V4Local` constructor is absent from src;
its behaviour is fixed by src/tests/test_v4.py, which expects
`ValueError("key must be specified.")` for an empty key,
`ValueError("key length must be up to 64 bytes.")` for a 65-byte key,
and accepts shorter keys such as `b"our-secret"` (10 bytes). -/
def v4LocalNew (key : Bytes) : Except Err V4Local :=
  if key = [] then .error .valueError
  else if key.length > 64 then .error .valueError
  else .ok ⟨key⟩

/-- `V2Public.__init__`: the isinstance check on
`(Ed25519PublicKey, Ed25519PrivateKey)` always passes in this typed
model, so construction from an `Ed25519Key` succeeds. -/
def v2PublicNew (k : Ed25519Key) : Except Err V2Public :=
  .ok ⟨k⟩

namespace V2Local

/-- `V2Local._generate_nonce(key, msg)` with the entropy drawn by
`token_bytes(24)` made explicit as the extra argument `rand`:
a non-empty seed must be exactly 24 bytes (else
`ValueError("nonce must be 24 bytes long.")`), an empty seed is replaced
by the fresh random bytes, and the nonce is
`blake2b(key = seed-or-random, digest_size = 24)` of `msg`. -/
def generateNonce (E : ExtCrypto) (seed msg rand : Bytes) : Except Err Bytes :=
  if seed = [] then .ok (E.blakeKeyed rand msg)
  else if seed.length = 24 then .ok (E.blakeKeyed seed msg)
  else .error .valueError

/-- The body bytes produced inside `V2Local.encrypt`: nonce `n` from
`_generate_nonce`, `pre_auth = pae([self.header, n, footer])`,
`c, tag = ChaCha20_Poly1305(key, nonce=n, aad=pre_auth).encrypt(payload)`,
body = `n + c + tag` (the bytes that `encrypt` base64url-encodes into
the token). -/
def encryptBody (E : ExtCrypto) (k : V2Local) (payload footer seed rand : Bytes) :
    Except Err Bytes := do
  let n ← generateNonce E seed payload rand
  let preAuth := pae [v2LocalHeader, n, footer]
  let (c, tag) := E.aeadSeal k.key n preAuth payload
  .ok (n ++ c ++ tag)

/-- `V2Local.encrypt(payload, footer, implicit_assertion, nonce)`:
token = `self._header + base64url_encode(n + c + tag)`, with
`b"." + base64url_encode(footer)` appended when the footer is non-empty.
The `ia` (implicit_assertion) parameter is accepted but unused, as in
the source. -/
def encrypt (E : ExtCrypto) (k : V2Local) (payload footer ia seed rand : Bytes) :
    Except Err Bytes := do
  let body ← encryptBody E k payload footer seed rand
  .ok (v2LocalHeader ++ E.b64e body ++ (if footer ≠ [] then 46 :: E.b64e footer else []))

/-- `V2Local.decrypt(payload, footer, implicit_assertion)`:
`n = payload[0:24]`, `c = payload[24 : len(payload)-16]`,
`tag = payload[-16:]`, `pre_auth = pae([self.header, n, footer])`, then
`decrypt_and_verify(c, tag)`; any failure of the AEAD open is re-raised
as `DecryptError("Failed to decrypt.")`.  The Nat-truncated `take`/`drop`
expressions agree with Python's clamping slice semantics at every
length.  The `ia` parameter is accepted but unused, as in the source. -/
def decrypt (E : ExtCrypto) (k : V2Local) (payload footer ia : Bytes) :
    Except Err Bytes :=
  let n := payload.take 24
  let c := (payload.take (payload.length - 16)).drop 24
  let tag := payload.drop (payload.length - 16)
  let preAuth := pae [v2LocalHeader, n, footer]
  match E.aeadOpen k.key n preAuth c tag with
  | some m => .ok m
  | none => .error .decryptError

/-- `b"k2.local."` -/
def k2localTag : Bytes := [107, 50, 46, 108, 111, 99, 97, 108, 46]

/-- `LocalKey.to_paserk` (absent from src).  Modelled from the spec:
emits `k2.local.` followed by base64url of the raw key material. -/
def to_paserk (E : ExtCrypto) (k : V2Local) : Bytes :=
  k2localTag ++ E.b64e k.key

/-- `b"k2.lid."` -/
def k2lidTag : Bytes := [107, 50, 46, 108, 105, 100, 46]

/-- `V2Local.to_paserk_id`: `h = "k2.lid."`, identifier =
`h + base64url(blake2b(digest_size=33)(h + to_paserk()))`. -/
def to_paserk_id (E : ExtCrypto) (k : V2Local) : Bytes :=
  k2lidTag ++ E.b64e (E.blake33 (k2lidTag ++ to_paserk E k))

end V2Local

/-- Python `str.split(".")` on byte strings: split on byte 46. -/
def splitDot : Bytes → List Bytes
  | [] => [[]]
  | c :: rest =>
    if c = 46 then [] :: splitDot rest
    else
      match splitDot rest with
      | f :: fs => (c :: f) :: fs
      | [] => [[c]]

namespace V2Local

/-- `V2Local.from_paserk(paserk)`: split on `"."`, require
`frags[0] == "k2"` and `frags[1] == "local"`, then construct the key
from the base64url-decoded third fragment via the validating
constructor. -/
def from_paserk (E : ExtCrypto) (p : Bytes) : Except Err V2Local :=
  let frags := splitDot p
  if frags.getD 0 [] ≠ [107, 50] then .error .valueError
  else if frags.getD 1 [] ≠ [108, 111, 99, 97, 108] then .error .valueError
  else v2LocalNew (E.b64d (frags.getD 2 []))

end V2Local

namespace V2Public

/-- `V2Public.sign(payload, footer, implicit_assertion)`: a public-only
key raises `ValueError("A public key cannot be used for signing.")`;
otherwise `m2 = pae([self.header, payload, footer])` and the source
returns `self._key.sign(m2)` — the bare signature, with no payload
prepended.  The `ia` parameter is accepted but unused, as in the
source. -/
def sign (E : ExtCrypto) (k : V2Public) (payload footer ia : Bytes) :
    Except Err Bytes :=
  match k.key with
  | .publicKey _ => .error .valueError
  | .privateKey sk => .ok (E.edSign sk (pae [v2PublicHeader, payload, footer]))

/-- The raw verifying key: the held public key, or, when only a private
key object is held, the public key derived from it
(`self._key.public_key()`). -/
def pubBytes (E : ExtCrypto) (k : V2Public) : Bytes :=
  match k.key with
  | .publicKey p => p
  | .privateKey sk => E.edPub sk

/-- `V2Public.verify(payload, footer, implicit_assertion)`:
`len(payload) <= 64` raises `ValueError("Invalid payload.")`; otherwise
`sig = payload[-64:]`, `m = payload[:-64]`,
`m2 = pae([self.header, m, footer])`, Ed25519 verification failure is
re-raised as `VerifyError("Failed to verify.")`, and success returns
`m`.  The `ia` parameter is accepted but unused, as in the source. -/
def verify (E : ExtCrypto) (k : V2Public) (payload footer ia : Bytes) :
    Except Err Bytes :=
  if payload.length ≤ 64 then .error .valueError
  else
    let sig := payload.drop (payload.length - 64)
    let m := payload.take (payload.length - 64)
    let m2 := pae [v2PublicHeader, m, footer]
    if E.edVerify (pubBytes E k) sig m2 then .ok m else .error .verifyError

/-- `b"k2.public."` -/
def k2publicTag : Bytes := [107, 50, 46, 112, 117, 98, 108, 105, 99, 46]

/-- `b"k2.secret."` -/
def k2secretTag : Bytes := [107, 50, 46, 115, 101, 99, 114, 101, 116, 46]

/-- `V2Public.to_paserk`: `k2.public.` + base64url(raw public bytes) for
a public key object, `k2.secret.` + base64url(raw private bytes) for a
private key object. -/
def to_paserk (E : ExtCrypto) (k : V2Public) : Bytes :=
  match k.key with
  | .publicKey p => k2publicTag ++ E.b64e p
  | .privateKey sk => k2secretTag ++ E.b64e sk

/-- `V2Public.from_paserk(paserk)`: split on `"."`, require
`frags[0] == "k2"`; `frags[1] == "public"` rebuilds an
`Ed25519PublicKey` from the decoded bytes, `frags[1] == "secret"`
rebuilds an `Ed25519PrivateKey`, anything else raises `ValueError`. -/
def from_paserk (E : ExtCrypto) (p : Bytes) : Except Err V2Public :=
  let frags := splitDot p
  if frags.getD 0 [] ≠ [107, 50] then .error .valueError
  else if frags.getD 1 [] = [112, 117, 98, 108, 105, 99] then
    .ok ⟨.publicKey (E.b64d (frags.getD 2 []))⟩
  else if frags.getD 1 [] = [115, 101, 99, 114, 101, 116] then
    .ok ⟨.privateKey (E.b64d (frags.getD 2 []))⟩
  else .error .valueError

/-- `b"k2.pid."` -/
def k2pidTag : Bytes := [107, 50, 46, 112, 105, 100, 46]

/-- `b"k2.sid."` -/
def k2sidTag : Bytes := [107, 50, 46, 115, 105, 100, 46]

/-- `V2Public.to_paserk_id`: `h = "k2.pid."` for a public key object,
`"k2.sid."` for a private one; identifier =
`h + base64url(blake2b(digest_size=33)(h + to_paserk()))`. -/
def to_paserk_id (E : ExtCrypto) (k : V2Public) : Bytes :=
  let h := match k.key with
    | .publicKey _ => k2pidTag
    | .privateKey _ => k2sidTag
  h ++ E.b64e (E.blake33 (h ++ to_paserk E k))

end V2Public

namespace V4Local

/-- Modelled from the spec: `V4Local._generate_nonce` is absent from
src.  Spec §4.2 gives the rule — the nonce is
`KeyedHash(key = nonce-seed-or-random-bytes-of-fixed-length,
message = payload, output_length = fixed)` with 32 bytes as the v4
fixed length — and src/tests/test_v4.py pins the failure: every
non-empty seed of length 1, 8, 31, 33 or 64 raises
`ValueError("nonce must be 32 bytes long.")`.  As in the v2 model, the
entropy drawn for an empty seed is the explicit argument `rand`. -/
def generateNonce (E : ExtCrypto) (seed msg rand : Bytes) : Except Err Bytes :=
  if seed = [] then .ok (E.blakeKeyed32 rand msg)
  else if seed.length = 32 then .ok (E.blakeKeyed32 seed msg)
  else .error .valueError

/-- Modelled from the spec: `V4Local.encrypt` is absent from src.  Per
spec §4.2 all versions share one control skeleton in which the nonce is
derived first and every cryptographic step (key splitting, stream
cipher, MAC) happens afterwards on the derived nonce; those later steps
are abstracted as the continuation `rest`, so theorems quantifying over
`rest` hold whatever the remainder of v4 encryption does. -/
def encryptWith (E : ExtCrypto) (k : V4Local)
    (rest : V4Local → Bytes → Except Err Bytes) (payload seed rand : Bytes) :
    Except Err Bytes := do
  let n ← generateNonce E seed payload rand
  rest k n

end V4Local

/-!
A concrete, executable instantiation of the external primitives.  It is
not the real cryptography (which the repository treats as an external
collaborator); it is a small model satisfying exactly the interface
properties the theorems assume (AEAD open inverts seal, fixed digest and
tag lengths, a left-invertible dot-free codec), used to evaluate the
theorems at concrete inputs.
-/

/-- Tag of the demo AEAD: 16 bytes determined by key, nonce, associated
data and ciphertext. -/
def demoTag (key n aad c : Bytes) : Bytes :=
  List.replicate 16 ((key.sum + n.sum + aad.sum + c.sum) % 256)

/-- Decoder for the demo unary codec: bytes 48 tally up a value, byte 49
terminates it. -/
def unaryDec : Bytes → Nat → Bytes
  | [], _ => []
  | 49 :: rest, acc => acc :: unaryDec rest 0
  | _ :: rest, acc => unaryDec rest (acc + 1)

/-- Encoder for the demo unary codec: each byte value `n` becomes `n`
copies of byte 48 followed by one byte 49; injective and free of byte 46
(the dot). -/
def unaryEnc (x : Bytes) : Bytes :=
  x.flatMap (fun n => List.replicate n 48 ++ [49])

/-- The demo instantiation of `ExtCrypto`. -/
def demoCrypto : ExtCrypto where
  blakeKeyed k m := List.replicate 24 ((k.sum + m.sum) % 256)
  blakeKeyed32 k m := List.replicate 32 ((k.sum + m.sum) % 256)
  blake33 m := List.replicate 33 (m.sum % 256)
  aeadSeal k n a p := (p.map (· + 1), demoTag k n a (p.map (· + 1)))
  aeadOpen k n a c t := if t = demoTag k n a c then some (c.map (· - 1)) else none
  edSign sk m := List.replicate 64 ((sk.sum + m.sum) % 256)
  edVerify pk sig m := sig = List.replicate 64 ((pk.sum + m.sum) % 256)
  edPub sk := sk
  b64e := unaryEnc
  b64d s := unaryDec s 0

/-- A concrete v2.local key (32 zero bytes, as in the spec's §8 example). -/
def dLocalKey : V2Local := ⟨List.replicate 32 0, by simp⟩

/-- A concrete v2.local key of 32 one-bytes. -/
def dLocalKey1 : V2Local := ⟨List.replicate 32 1, by simp⟩

/-- A concrete v2.public key holding a public Ed25519 key object. -/
def dPubKey : V2Public := ⟨.publicKey (List.replicate 32 2)⟩

/-- A concrete v2.public key holding a private Ed25519 key object. -/
def dPrivKey : V2Public := ⟨.privateKey (List.replicate 32 3)⟩

/-- A concrete 24-byte stand-in for the output of `token_bytes(24)`. -/
def dRand : Bytes := List.replicate 24 5

theorem unaryDec_replicate (n acc : Nat) (rest : Bytes) :
    unaryDec (List.replicate n 48 ++ 49 :: rest) acc = (acc + n) :: unaryDec rest 0 := by
  induction n generalizing acc with
  | zero =>
    simp only [List.replicate_zero, List.nil_append, Nat.add_zero]
    rfl
  | succ m ih =>
    rw [List.replicate_succ, List.cons_append]
    have h : unaryDec (48 :: (List.replicate m 48 ++ 49 :: rest)) acc
        = unaryDec (List.replicate m 48 ++ 49 :: rest) (acc + 1) := rfl
    rw [h, ih (acc + 1)]
    congr 1
    omega

theorem demo_b64_leftInv : ∀ x : Bytes, demoCrypto.b64d (demoCrypto.b64e x) = x := by
  intro x
  induction x with
  | nil => rfl
  | cons a xs ih =>
    show unaryDec (unaryEnc (a :: xs)) 0 = a :: xs
    have h : unaryEnc (a :: xs) = List.replicate a 48 ++ 49 :: unaryEnc xs := by
      simp [unaryEnc]
    rw [h, unaryDec_replicate]
    simpa using ih

theorem demo_b64_noDot : ∀ x : Bytes, 46 ∉ demoCrypto.b64e x := by
  intro x hmem
  have : (46 : Nat) = 48 ∨ (46 : Nat) = 49 := by
    simp only [demoCrypto, unaryEnc, List.mem_flatMap] at hmem
    obtain ⟨n, -, hn⟩ := hmem
    rcases List.mem_append.mp hn with h | h
    · exact Or.inl (List.eq_of_mem_replicate h)
    · exact Or.inr (by simpa using h)
  omega

theorem demo_map_succ_pred (p : Bytes) : (p.map (· + 1)).map (· - 1) = p := by
  induction p with
  | nil => rfl
  | cons a l ih => simp [ih]

theorem demo_aead_open_seal : ∀ k n a p : Bytes,
    demoCrypto.aeadOpen k n a (demoCrypto.aeadSeal k n a p).1 (demoCrypto.aeadSeal k n a p).2 = some p := by
  intro k n a p
  show (if demoTag k n a (p.map (· + 1)) = demoTag k n a (p.map (· + 1))
      then some ((p.map (· + 1)).map (· - 1)) else none) = some p
  rw [if_pos rfl, demo_map_succ_pred]

theorem demo_aead_ct_len : ∀ k n a p : Bytes,
    ((demoCrypto.aeadSeal k n a p).1).length = p.length := by
  intro k n a p
  simp [demoCrypto]

theorem demo_aead_tag_len : ∀ k n a p : Bytes,
    ((demoCrypto.aeadSeal k n a p).2).length = 16 := by
  intro k n a p
  simp [demoCrypto, demoTag]

theorem demo_nonce_len : ∀ k m : Bytes, (demoCrypto.blakeKeyed k m).length = 24 := by
  intro k m
  simp [demoCrypto]

theorem demo_sig_len : ∀ k m : Bytes, (demoCrypto.edSign k m).length = 64 := by
  intro k m
  simp [demoCrypto]

/-! Helper lemmas about `splitDot` and the constructors. -/

theorem splitDot_noDot (xs : Bytes) (h : 46 ∉ xs) : splitDot xs = [xs] := by
  induction xs with
  | nil => rfl
  | cons c rest ih =>
    have hc : c ≠ 46 := fun hc => h (by simp [hc])
    have hrest : 46 ∉ rest := fun hm => h (by simp [hm])
    rw [splitDot, if_neg hc, ih hrest]

theorem splitDot_cons_append (xs ys : Bytes) (h : 46 ∉ xs) :
    splitDot (xs ++ 46 :: ys) = xs :: splitDot ys := by
  induction xs with
  | nil =>
    show splitDot (46 :: ys) = [] :: splitDot ys
    rw [splitDot, if_pos rfl]
  | cons c rest ih =>
    have hc : c ≠ 46 := fun hc => h (by simp [hc])
    have hrest : 46 ∉ rest := fun hm => h (by simp [hm])
    rw [List.cons_append, splitDot, if_neg hc, ih hrest]

theorem v2LocalNew_of_key (k : V2Local) : v2LocalNew k.key = .ok k := by
  obtain ⟨key, hl⟩ := k
  have hne : ¬key = [] := by
    intro h
    rw [h] at hl
    simp at hl
  simp [v2LocalNew, hne, hl]

theorem prepend_ne_of_ne7 (a b x y : Bytes) (ha : a.length = 7) (hb : b.length = 7)
    (hab : a ≠ b) : a ++ x ≠ b ++ y := by
  intro heq
  exact hab (List.append_inj heq (ha.trans hb.symm)).1

/-- C8: for every v2 key, `Key.from_paserk (to_paserk k)` reconstructs the
key exactly — for a local key the same 32 raw bytes (via the validating
constructor), for a public-mode key the same public/private key object
kind — provided the base64url codec is left-invertible and its output
never contains the `.` byte. -/
theorem v2_paserk_roundtrip (E : ExtCrypto)
    (hInv : ∀ x, E.b64d (E.b64e x) = x)
    (hDot : ∀ x, 46 ∉ E.b64e x) :
    (∀ k : V2Local, V2Local.from_paserk E (V2Local.to_paserk E k) = .ok k)
    ∧ (∀ k : V2Public, V2Public.from_paserk E (V2Public.to_paserk E k) = .ok k) := by
  constructor
  · intro k
    have h1 : V2Local.to_paserk E k
        = [107, 50] ++ 46 :: ([108, 111, 99, 97, 108] ++ 46 :: E.b64e k.key) := rfl
    have hs : splitDot (V2Local.to_paserk E k)
        = [[107, 50], [108, 111, 99, 97, 108], E.b64e k.key] := by
      rw [h1, splitDot_cons_append _ _ (by decide),
        splitDot_cons_append _ _ (by decide), splitDot_noDot _ (hDot k.key)]
    simp [V2Local.from_paserk, hs, hInv, v2LocalNew_of_key]
  · intro k
    obtain ⟨kk⟩ := k
    cases kk with
    | publicKey p =>
      have h1 : V2Public.to_paserk E ⟨.publicKey p⟩
          = [107, 50] ++ 46 :: ([112, 117, 98, 108, 105, 99] ++ 46 :: E.b64e p) := rfl
      have hs : splitDot (V2Public.to_paserk E ⟨.publicKey p⟩)
          = [[107, 50], [112, 117, 98, 108, 105, 99], E.b64e p] := by
        rw [h1, splitDot_cons_append _ _ (by decide),
          splitDot_cons_append _ _ (by decide), splitDot_noDot _ (hDot p)]
      simp [V2Public.from_paserk, hs, hInv]
    | privateKey s =>
      have h1 : V2Public.to_paserk E ⟨.privateKey s⟩
          = [107, 50] ++ 46 :: ([115, 101, 99, 114, 101, 116] ++ 46 :: E.b64e s) := rfl
      have hs : splitDot (V2Public.to_paserk E ⟨.privateKey s⟩)
          = [[107, 50], [115, 101, 99, 114, 101, 116], E.b64e s] := by
        rw [h1, splitDot_cons_append _ _ (by decide),
          splitDot_cons_append _ _ (by decide), splitDot_noDot _ (hDot s)]
      simp [V2Public.from_paserk, hs, hInv]

/-- Witness for C8: the round trip evaluated on concrete local and
private keys under the demo primitives. -/
theorem v2_paserk_roundtrip_witness :
    V2Local.from_paserk demoCrypto (V2Local.to_paserk demoCrypto dLocalKey) = .ok dLocalKey
    ∧ V2Public.from_paserk demoCrypto (V2Public.to_paserk demoCrypto dPrivKey) = .ok dPrivKey :=
  ⟨(v2_paserk_roundtrip demoCrypto demo_b64_leftInv demo_b64_noDot).1 dLocalKey,
   (v2_paserk_roundtrip demoCrypto demo_b64_leftInv demo_b64_noDot).2 dPrivKey⟩

/-- C9: `to_paserk_id` returns
`p + base64url(blake2b(digest_size = 33)(p + to_paserk(key)))` with
prefix `p` equal to `k2.lid.` / `k2.pid.` / `k2.sid.` according to the
key's role; being a pure function of the key it is deterministic, and
keys with identical raw material but different roles always get
different identifiers (their prefixes already differ). -/
theorem v2_paserk_id_structure_and_roles :
    (∀ (E : ExtCrypto) (k : V2Local),
        V2Local.to_paserk_id E k
          = V2Local.k2lidTag
              ++ E.b64e (E.blake33 (V2Local.k2lidTag ++ V2Local.to_paserk E k)))
    ∧ (∀ (E : ExtCrypto) (p : Bytes),
        V2Public.to_paserk_id E ⟨.publicKey p⟩
          = V2Public.k2pidTag
              ++ E.b64e (E.blake33 (V2Public.k2pidTag ++ V2Public.to_paserk E ⟨.publicKey p⟩)))
    ∧ (∀ (E : ExtCrypto) (s : Bytes),
        V2Public.to_paserk_id E ⟨.privateKey s⟩
          = V2Public.k2sidTag
              ++ E.b64e (E.blake33 (V2Public.k2sidTag ++ V2Public.to_paserk E ⟨.privateKey s⟩)))
    ∧ (∀ (E : ExtCrypto) (k : V2Local) (kp : V2Public),
        V2Local.to_paserk_id E k ≠ V2Public.to_paserk_id E kp)
    ∧ (∀ (E : ExtCrypto) (raw : Bytes),
        V2Public.to_paserk_id E ⟨.publicKey raw⟩ ≠ V2Public.to_paserk_id E ⟨.privateKey raw⟩) := by
  refine ⟨fun E k => rfl, fun E p => rfl, fun E s => rfl, ?_, ?_⟩
  · intro E k kp
    obtain ⟨kk⟩ := kp
    cases kk with
    | publicKey p =>
      exact prepend_ne_of_ne7 V2Local.k2lidTag V2Public.k2pidTag _ _
        (by decide) (by decide) (by decide)
    | privateKey s =>
      exact prepend_ne_of_ne7 V2Local.k2lidTag V2Public.k2sidTag _ _
        (by decide) (by decide) (by decide)
  · intro E raw
    exact prepend_ne_of_ne7 V2Public.k2pidTag V2Public.k2sidTag _ _
      (by decide) (by decide) (by decide)

/-- Witness for C9: the identifier structure evaluated on a concrete
local key, and role separation on one concrete 32-byte raw value. -/
theorem v2_paserk_id_structure_and_roles_witness :
    V2Local.to_paserk_id demoCrypto dLocalKey
        = V2Local.k2lidTag
            ++ demoCrypto.b64e (demoCrypto.blake33
                  (V2Local.k2lidTag ++ V2Local.to_paserk demoCrypto dLocalKey))
    ∧ V2Public.to_paserk_id demoCrypto ⟨.publicKey (List.replicate 32 0)⟩
        ≠ V2Public.to_paserk_id demoCrypto ⟨.privateKey (List.replicate 32 0)⟩ :=
  ⟨v2_paserk_id_structure_and_roles.1 demoCrypto dLocalKey,
   v2_paserk_id_structure_and_roles.2.2.2.2 demoCrypto (List.replicate 32 0)⟩

/-- C10: the `implicit_assertion` parameter is accepted but ignored by
every v2 operation — each of encrypt, decrypt, sign and verify yields
identical results under any two assertion values, because the v2 PAE
input is the three-element list that omits the assertion. -/
theorem v2_ignores_implicit_assertion :
    ∀ (E : ExtCrypto) (kl : V2Local) (kp : V2Public)
      (payload footer seed rand a a' : Bytes),
      V2Local.encrypt E kl payload footer a seed rand
          = V2Local.encrypt E kl payload footer a' seed rand
      ∧ V2Local.decrypt E kl payload footer a = V2Local.decrypt E kl payload footer a'
      ∧ V2Public.sign E kp payload footer a = V2Public.sign E kp payload footer a'
      ∧ V2Public.verify E kp payload footer a = V2Public.verify E kp payload footer a' :=
  fun _ _ _ _ _ _ _ _ _ => ⟨rfl, rfl, rfl, rfl⟩

/-- Counterexample to C4 as stated: the v4 local constructor (fixed by
the repository's tests) accepts a 10-byte key, although 10 ≠ 32. -/
theorem v4_local_accepts_10_bytes :
    (∃ k, v4LocalNew (List.replicate 10 1) = .ok k)
    ∧ (List.replicate 10 1).length ≠ 32 :=
  ⟨⟨⟨List.replicate 10 1⟩, rfl⟩, by decide⟩

/-- C4 (amended): constructing a v2 local key succeeds exactly when the
material is 32 bytes; constructing a v4 local key succeeds exactly when
the material is non-empty and at most 64 bytes. -/
theorem v2_v4_local_key_length :
    (∀ key : Bytes, (∃ k, v2LocalNew key = .ok k) ↔ key.length = 32)
    ∧ (∀ key : Bytes, (∃ k, v4LocalNew key = .ok k) ↔ (key ≠ [] ∧ key.length ≤ 64)) := by
  constructor
  · intro key
    constructor
    · rintro ⟨k, hk⟩
      unfold v2LocalNew at hk
      by_cases h0 : key = []
      · rw [if_pos h0] at hk
        simp at hk
      · rw [if_neg h0] at hk
        by_cases h32 : key.length = 32
        · exact h32
        · rw [dif_neg h32] at hk
          simp at hk
    · intro h32
      exact ⟨⟨key, h32⟩, v2LocalNew_of_key ⟨key, h32⟩⟩
  · intro key
    constructor
    · rintro ⟨k, hk⟩
      unfold v4LocalNew at hk
      by_cases h0 : key = []
      · rw [if_pos h0] at hk
        simp at hk
      · by_cases h64 : key.length > 64
        · rw [if_neg h0, if_pos h64] at hk
          simp at hk
        · exact ⟨h0, by omega⟩
    · rintro ⟨h0, h64⟩
      refine ⟨⟨key⟩, ?_⟩
      unfold v4LocalNew
      rw [if_neg h0, if_neg (by omega)]

/-- Witness for C4 (amended): a 32-byte v2 local key and a 64-byte v4
local key are both accepted. -/
theorem v2_v4_local_key_length_witness :
    (∃ k, v2LocalNew (List.replicate 32 0) = .ok k)
    ∧ (∃ k, v4LocalNew (List.replicate 64 9) = .ok k) :=
  ⟨(v2_v4_local_key_length.1 (List.replicate 32 0)).mpr (by decide),
   (v2_v4_local_key_length.2 (List.replicate 64 9)).mpr (by decide)⟩

/-- C3 (code evaluated at the failing input): `V2Public.sign` returns
the bare signature — the output has signature length 64, not
`len(payload) + 64` as `payload || signature` would — and the code's own
`verify` then rejects the output of `sign` outright, since 64 ≤ 64. -/
theorem v2_public_sign_drops_payload :
    (V2Public.sign demoCrypto dPrivKey [1, 2, 3] [] []).map List.length = .ok 64
    ∧ ([1, 2, 3]
        ++ demoCrypto.edSign (List.replicate 32 3) (pae [v2PublicHeader, [1, 2, 3], []])).length
        = 67
    ∧ (V2Public.sign demoCrypto dPrivKey [1, 2, 3] [] []).bind
        (fun t => V2Public.verify demoCrypto dPrivKey t [] []) = .error .valueError := by
  refine ⟨rfl, rfl, rfl⟩

/-- Fixed-offset slicing of `nonce ++ ciphertext ++ tag` recovers the
three components when the nonce is 24 bytes and the tag 16. -/
theorem slice_body (n c tag : Bytes) (hn : n.length = 24) (htag : tag.length = 16) :
    (n ++ c ++ tag).take 24 = n
    ∧ ((n ++ c ++ tag).take ((n ++ c ++ tag).length - 16)).drop 24 = c
    ∧ (n ++ c ++ tag).drop ((n ++ c ++ tag).length - 16) = tag := by
  have hlen : (n ++ c ++ tag).length - 16 = (n ++ c).length := by
    simp only [List.length_append, htag]
    omega
  refine ⟨?_, ?_, ?_⟩
  · rw [List.append_assoc, ← hn]
    exact List.take_left n (c ++ tag)
  · rw [hlen, List.take_left, ← hn]
    exact List.drop_left n c
  · rw [hlen]
    exact List.drop_left (n ++ c) tag

/-- C1: round trip — for every 32-byte v2 local key, payload, footer and
admissible nonce seed (empty, or exactly 24 bytes), decrypting the body
bytes produced by `V2Local.encrypt` with the same footer returns the
original payload, given that the AEAD collaborator opens what it seals,
keeps the plaintext length, emits 16-byte tags, and the keyed blake2b
emits 24-byte digests. -/
theorem v2_local_roundtrip (E : ExtCrypto)
    (hOpen : ∀ bk n a p,
      E.aeadOpen bk n a (E.aeadSeal bk n a p).1 (E.aeadSeal bk n a p).2 = some p)
    (hTag : ∀ bk n a p, ((E.aeadSeal bk n a p).2).length = 16)
    (hBlake : ∀ bk m, (E.blakeKeyed bk m).length = 24)
    (k : V2Local) (payload footer ia seed rand : Bytes)
    (hSeed : seed = [] ∨ seed.length = 24) :
    (V2Local.encryptBody E k payload footer seed rand).bind
        (fun body => V2Local.decrypt E k body footer ia) = .ok payload := by
  obtain ⟨nk, hg⟩ : ∃ nk,
      V2Local.generateNonce E seed payload rand = .ok (E.blakeKeyed nk payload) := by
    rcases hSeed with h | h
    · refine ⟨rand, ?_⟩
      unfold V2Local.generateNonce
      rw [if_pos h]
    · have h0 : ¬seed = [] := by
        intro he
        rw [he] at h
        simp at h
      refine ⟨seed, ?_⟩
      unfold V2Local.generateNonce
      rw [if_neg h0, if_pos h]
  unfold V2Local.encryptBody
  rw [hg]
  show V2Local.decrypt E k
      (E.blakeKeyed nk payload
        ++ (E.aeadSeal k.key (E.blakeKeyed nk payload)
              (pae [v2LocalHeader, E.blakeKeyed nk payload, footer]) payload).1
        ++ (E.aeadSeal k.key (E.blakeKeyed nk payload)
              (pae [v2LocalHeader, E.blakeKeyed nk payload, footer]) payload).2)
      footer ia = .ok payload
  obtain ⟨e1, e2, e3⟩ := slice_body (E.blakeKeyed nk payload)
    (E.aeadSeal k.key (E.blakeKeyed nk payload)
      (pae [v2LocalHeader, E.blakeKeyed nk payload, footer]) payload).1
    (E.aeadSeal k.key (E.blakeKeyed nk payload)
      (pae [v2LocalHeader, E.blakeKeyed nk payload, footer]) payload).2
    (hBlake nk payload)
    (hTag k.key (E.blakeKeyed nk payload)
      (pae [v2LocalHeader, E.blakeKeyed nk payload, footer]) payload)
  unfold V2Local.decrypt
  simp only [e1, e2, e3, hOpen]

/-- Witness for C1: the round trip evaluated on a concrete key, payload
and footer with an empty caller seed under the demo primitives. -/
theorem v2_local_roundtrip_witness :
    (V2Local.encryptBody demoCrypto dLocalKey [1, 2, 3] [7] [] dRand).bind
        (fun body => V2Local.decrypt demoCrypto dLocalKey body [7] []) = .ok [1, 2, 3] :=
  v2_local_roundtrip demoCrypto demo_aead_open_seal demo_aead_tag_len demo_nonce_len
    dLocalKey [1, 2, 3] [7] [] [] dRand (Or.inl rfl)

/-- C2: `V2Local.decrypt` succeeds with plaintext `m` exactly when the
AEAD opens the fixed-offset components — nonce = first 24 bytes, tag =
last 16 bytes, ciphertext = the remainder — against the recomputed
`pre_auth = pae([header, nonce, footer])` and yields `m`; and every
failure surfaces as the single error `DecryptError`, whatever its
cause. -/
theorem v2_local_decrypt_offsets_single_error (E : ExtCrypto) (k : V2Local)
    (payload footer ia : Bytes) :
    (∀ m, V2Local.decrypt E k payload footer ia = .ok m
        ↔ E.aeadOpen k.key (payload.take 24)
            (pae [v2LocalHeader, payload.take 24, footer])
            ((payload.take (payload.length - 16)).drop 24)
            (payload.drop (payload.length - 16)) = some m)
    ∧ ∀ e, V2Local.decrypt E k payload footer ia = .error e → e = .decryptError := by
  have hd : V2Local.decrypt E k payload footer ia
      = match E.aeadOpen k.key (payload.take 24)
            (pae [v2LocalHeader, payload.take 24, footer])
            ((payload.take (payload.length - 16)).drop 24)
            (payload.drop (payload.length - 16)) with
        | some m => .ok m
        | none => .error .decryptError := rfl
  rw [hd]
  cases h : E.aeadOpen k.key (payload.take 24)
      (pae [v2LocalHeader, payload.take 24, footer])
      ((payload.take (payload.length - 16)).drop 24)
      (payload.drop (payload.length - 16)) with
  | none =>
    refine ⟨fun m => by simp, fun e he => ?_⟩
    exact (Except.error.inj he).symm
  | some m0 =>
    refine ⟨fun m => by simp, fun e he => ?_⟩
    exact Except.noConfusion he

/-- Witness for C2: a 40-byte all-zero payload whose tag cannot verify
under the demo primitives; decrypt fails, and every failure is
`DecryptError`. -/
theorem v2_local_decrypt_offsets_single_error_witness :
    Err.decryptError = Err.decryptError
    ∧ V2Local.decrypt demoCrypto dLocalKey1 (List.replicate 40 0) [] []
        = .error .decryptError :=
  ⟨(v2_local_decrypt_offsets_single_error demoCrypto dLocalKey1
      (List.replicate 40 0) [] []).2 .decryptError (by rfl), by rfl⟩

/-- C5: a caller-supplied non-empty nonce seed whose length differs from
the version's fixed requirement — 24 bytes for v2, 32 bytes for v4 —
makes encrypt fail with `ValueError`, for every choice of the external
primitives and (for v4) every continuation of the encrypt control
skeleton, hence before any cryptographic primitive is invoked; a
non-empty seed of exactly the required length is accepted and becomes
the keyed-hash key. -/
theorem local_nonce_length_check :
    (∀ (E : ExtCrypto) (k : V2Local) (payload footer ia seed rand : Bytes),
        seed ≠ [] → seed.length ≠ 24 →
          V2Local.encrypt E k payload footer ia seed rand = .error .valueError)
    ∧ (∀ (E : ExtCrypto) (seed msg rand : Bytes),
        seed.length = 24 →
          V2Local.generateNonce E seed msg rand = .ok (E.blakeKeyed seed msg))
    ∧ (∀ (E : ExtCrypto) (k : V4Local) (rest : V4Local → Bytes → Except Err Bytes)
          (payload seed rand : Bytes),
        seed ≠ [] → seed.length ≠ 32 →
          V4Local.encryptWith E k rest payload seed rand = .error .valueError)
    ∧ (∀ (E : ExtCrypto) (seed msg rand : Bytes),
        seed.length = 32 →
          V4Local.generateNonce E seed msg rand = .ok (E.blakeKeyed32 seed msg))
    ∧ (∀ (E : ExtCrypto) (k : V4Local) (rest : V4Local → Bytes → Except Err Bytes)
          (payload seed rand : Bytes),
        seed.length = 32 →
          V4Local.encryptWith E k rest payload seed rand
            = rest k (E.blakeKeyed32 seed payload)) := by
  refine ⟨?_, ?_, ?_, ?_, ?_⟩
  · intro E k payload footer ia seed rand h0 h24
    unfold V2Local.encrypt V2Local.encryptBody V2Local.generateNonce
    rw [if_neg h0, if_neg h24]
    rfl
  · intro E seed msg rand h24
    have h0 : ¬seed = [] := by
      intro h
      rw [h] at h24
      simp at h24
    unfold V2Local.generateNonce
    rw [if_neg h0, if_pos h24]
  · intro E k rest payload seed rand h0 h32
    unfold V4Local.encryptWith V4Local.generateNonce
    rw [if_neg h0, if_neg h32]
    rfl
  · intro E seed msg rand h32
    have h0 : ¬seed = [] := by
      intro h
      rw [h] at h32
      simp at h32
    unfold V4Local.generateNonce
    rw [if_neg h0, if_pos h32]
  · intro E k rest payload seed rand h32
    have h0 : ¬seed = [] := by
      intro h
      rw [h] at h32
      simp at h32
    unfold V4Local.encryptWith V4Local.generateNonce
    rw [if_neg h0, if_pos h32]
    rfl

/-- Witness for C5: a 3-byte seed is rejected by v2 and a 31-byte seed
by v4 (one of the lengths src/tests/test_v4.py exercises), both with
`ValueError`; a 24-byte seed is accepted by v2 and a 32-byte seed by
v4, reaching the continuation. -/
theorem local_nonce_length_check_witness :
    V2Local.encrypt demoCrypto dLocalKey [1] [] [] (List.replicate 3 7) dRand
        = .error .valueError
    ∧ V2Local.generateNonce demoCrypto dRand [1] []
        = .ok (demoCrypto.blakeKeyed dRand [1])
    ∧ V4Local.encryptWith demoCrypto ⟨[9]⟩ (fun _ n => .ok n) [1]
          (List.replicate 31 7) [] = .error .valueError
    ∧ V4Local.generateNonce demoCrypto (List.replicate 32 7) [1] []
        = .ok (demoCrypto.blakeKeyed32 (List.replicate 32 7) [1])
    ∧ V4Local.encryptWith demoCrypto ⟨[9]⟩ (fun _ n => .ok n) [1]
          (List.replicate 32 7) []
        = .ok (demoCrypto.blakeKeyed32 (List.replicate 32 7) [1]) :=
  ⟨local_nonce_length_check.1 demoCrypto dLocalKey [1] [] [] (List.replicate 3 7)
      dRand (by decide) (by decide),
   local_nonce_length_check.2.1 demoCrypto dRand [1] [] (by decide),
   local_nonce_length_check.2.2.1 demoCrypto ⟨[9]⟩ (fun _ n => .ok n) [1]
      (List.replicate 31 7) [] (by decide) (by decide),
   local_nonce_length_check.2.2.2.1 demoCrypto (List.replicate 32 7) [1] [] (by decide),
   local_nonce_length_check.2.2.2.2 demoCrypto ⟨[9]⟩ (fun _ n => .ok n) [1]
      (List.replicate 32 7) [] (by decide)⟩

/-- C6: for a non-empty 24-byte seed the nonce is the 24-byte keyed
blake2b of the payload with the seed as hash key, independent of the
drawn randomness; with an empty seed the fresh random bytes become the
hash key of the same keyed hash; so the hash key, not the AEAD key, is
what is randomized, and for a fixed non-empty seed the whole encryption
body is a deterministic function of (seed, payload, footer). -/
theorem v2_local_nonce_derivation :
    (∀ (E : ExtCrypto) (seed msg rand : Bytes), seed ≠ [] → seed.length = 24 →
        V2Local.generateNonce E seed msg rand = .ok (E.blakeKeyed seed msg))
    ∧ (∀ (E : ExtCrypto) (msg rand : Bytes),
        V2Local.generateNonce E [] msg rand = .ok (E.blakeKeyed rand msg))
    ∧ (∀ (E : ExtCrypto) (seed msg rand rand' : Bytes), seed ≠ [] →
        V2Local.generateNonce E seed msg rand = V2Local.generateNonce E seed msg rand')
    ∧ (∀ (E : ExtCrypto) (k : V2Local) (payload footer seed rand rand' : Bytes),
        seed ≠ [] →
          V2Local.encryptBody E k payload footer seed rand
            = V2Local.encryptBody E k payload footer seed rand') := by
  refine ⟨?_, ?_, ?_, ?_⟩
  · intro E seed msg rand h0 h24
    unfold V2Local.generateNonce
    rw [if_neg h0, if_pos h24]
  · intro E msg rand
    unfold V2Local.generateNonce
    rw [if_pos rfl]
  · intro E seed msg rand rand' h0
    unfold V2Local.generateNonce
    simp only [if_neg h0]
  · intro E k payload footer seed rand rand' h0
    unfold V2Local.encryptBody V2Local.generateNonce
    simp only [if_neg h0]

/-- Witness for C6: the nonce derivation evaluated at a concrete
24-byte seed and at the empty seed. -/
theorem v2_local_nonce_derivation_witness :
    V2Local.generateNonce demoCrypto dRand [2] [] = .ok (demoCrypto.blakeKeyed dRand [2])
    ∧ V2Local.generateNonce demoCrypto [] [2] dRand = .ok (demoCrypto.blakeKeyed dRand [2])
    ∧ V2Local.generateNonce demoCrypto dRand [2] []
        = V2Local.generateNonce demoCrypto dRand [2] dRand
    ∧ V2Local.encryptBody demoCrypto dLocalKey [2] [] dRand []
        = V2Local.encryptBody demoCrypto dLocalKey [2] [] dRand dRand :=
  ⟨v2_local_nonce_derivation.1 demoCrypto dRand [2] [] (by decide) (by decide),
   v2_local_nonce_derivation.2.1 demoCrypto [2] dRand,
   v2_local_nonce_derivation.2.2.1 demoCrypto dRand [2] [] dRand (by decide),
   v2_local_nonce_derivation.2.2.2 demoCrypto dLocalKey [2] [] dRand [] dRand (by decide)⟩

/-- C7: `V2Public.verify` raises `ValueError` whenever the payload is no
longer than the 64-byte signature; otherwise it verifies the last 64
bytes as a signature over `pae([header, message, footer])` with the
held public key (derived from the private key when only that is held),
returning the message on success and `VerifyError` on failure. -/
theorem v2_public_verify_spec (E : ExtCrypto) (k : V2Public)
    (payload footer ia : Bytes) :
    (payload.length ≤ 64 → V2Public.verify E k payload footer ia = .error .valueError)
    ∧ (64 < payload.length →
        V2Public.verify E k payload footer ia
          = if E.edVerify (V2Public.pubBytes E k) (payload.drop (payload.length - 64))
                (pae [v2PublicHeader, payload.take (payload.length - 64), footer])
            then .ok (payload.take (payload.length - 64))
            else .error .verifyError) := by
  constructor
  · intro h
    unfold V2Public.verify
    rw [if_pos h]
  · intro h
    unfold V2Public.verify
    rw [if_neg (by omega)]

/-- Witness for C7: a 64-byte payload is rejected as malformed; a
65-byte payload reaches signature verification. -/
theorem v2_public_verify_spec_witness :
    V2Public.verify demoCrypto dPubKey (List.replicate 64 0) [] [] = .error .valueError
    ∧ V2Public.verify demoCrypto dPubKey (List.replicate 65 0) [] []
        = if demoCrypto.edVerify (V2Public.pubBytes demoCrypto dPubKey)
              ((List.replicate 65 0).drop ((List.replicate 65 0).length - 64))
              (pae [v2PublicHeader,
                (List.replicate 65 0).take ((List.replicate 65 0).length - 64), []])
          then .ok ((List.replicate 65 0).take ((List.replicate 65 0).length - 64))
          else .error .verifyError :=
  ⟨(v2_public_verify_spec demoCrypto dPubKey (List.replicate 64 0) [] []).1 (by decide),
   (v2_public_verify_spec demoCrypto dPubKey (List.replicate 65 0) [] []).2 (by decide)⟩

end Pyseto
